import Mathlib

/-!
Shallow embedding of the "viagens" single-page client (the repository's one
source component) and proofs of the specification claims about it.

The embedded pieces, in source order:
  * the configuration constants `ROLE_NAMESPACE`, `ROLE_CLAIM_KEYS`, `ADMIN_ROLE`;
  * `decodeJwtPayload` (token.split("."), base64url normalisation, `atob`,
    the percent-escape UTF-8 decoding trick, `JSON.parse`);
  * `extractRolesFromSource` and the derived role set / `isAdmin` flag;
  * the stateful handlers `fetchViagens`, `handleCreate`, `handleDelete`,
    `refreshToken` and the authentication `useEffect`, modelled as explicit
    state-transition functions over an `AppState` record whose fields are the
    component's `useState` cells.

Host built-ins (`atob`, `decodeURIComponent`, `JSON.parse`) are modelled as
executable Lean functions following their standard semantics; JavaScript
values are modelled by the `Json` inductive, with `Json.null` standing for
both `null` and `undefined` where the code cannot distinguish them, and JSON
numbers carried as their source literal (the code never computes with them).
-/

/-- A JSON value / JavaScript data value, as produced by `JSON.parse`.
Numbers keep their literal text: the client never inspects numeric values,
so IEEE-754 semantics are not needed. Object fields keep insertion order;
duplicate keys are resolved by `jsGet` with last-occurrence-wins, matching
`JSON.parse`. -/
inductive Json where
  | null
  | bool (b : Bool)
  | num (lit : String)
  | str (s : String)
  | arr (elems : List Json)
  | obj (fields : List (String × Json))
deriving Repr

mutual

/-- Structural equality of `Json` values (the value equality JavaScript's
`===` gives on the primitive values this client actually compares). -/
def Json.beq : Json → Json → Bool
  | .null, .null => true
  | .bool a, .bool b => a == b
  | .num a, .num b => a == b
  | .str a, .str b => a == b
  | .arr xs, .arr ys => Json.beqList xs ys
  | .obj fs, .obj gs => Json.beqFields fs gs
  | _, _ => false

/-- Pointwise `Json.beq` on lists. -/
def Json.beqList : List Json → List Json → Bool
  | [], [] => true
  | x :: xs, y :: ys => Json.beq x y && Json.beqList xs ys
  | _, _ => false

/-- Pointwise `Json.beq` on object field lists. -/
def Json.beqFields : List (String × Json) → List (String × Json) → Bool
  | [], [] => true
  | (k, v) :: xs, (l, w) :: ys => k == l && Json.beq v w && Json.beqFields xs ys
  | _, _ => false

end

instance : BEq Json := ⟨Json.beq⟩

/-- JavaScript property access `source[key]` on a parsed JSON value:
defined only on objects (arrays, strings, numbers, booleans and null have
none of the role-claim keys), with the last duplicate key winning as in
`JSON.parse`. `none` models `undefined`. -/
def jsGet : Json → String → Option Json
  | .obj fields, k => ((fields.filter (fun p => p.1 == k)).getLast?).map (fun p => p.2)
  | _, _ => none

/-- Whether a numeric literal produced by `JSON.parse` denotes zero: every
digit of its mantissa (the part before any exponent marker) is outside
`1`-`9`. -/
def numLitIsZero (lit : String) : Bool :=
  (lit.data.takeWhile (fun c => c != 'e' && c != 'E')).all
    (fun c => !('1' ≤ c && c ≤ '9'))

/-- JavaScript falsiness of a `Json` value (the `!source` test in
`extractRolesFromSource`): `null`/`undefined`, `false`, the empty string and
numeric zero are falsy; arrays and objects are always truthy. -/
def jsFalsy : Json → Bool
  | .null => true
  | .bool b => !b
  | .str s => s == ""
  | .num lit => numLitIsZero lit
  | .arr _ => false
  | .obj _ => false

/-- `ROLE_NAMESPACE` of the source (the `VITE_AUTH0_ROLE_NAMESPACE` default;
environment overriding is deployment configuration, not modelled). -/
def ROLE_NAMESPACE : String := "https://dev-hb5tnbkuyk217lt2.us.auth0.com/roles"

/-- `ROLE_CLAIM_KEYS` of the source: the fixed ordered list of claim keys
scanned for role arrays. -/
def ROLE_CLAIM_KEYS : List String :=
  [ROLE_NAMESPACE, "https://schemas.auth0.com/roles", "roles"]

/-- `ADMIN_ROLE` of the source. -/
def ADMIN_ROLE : String := "admin"

/-- The body of the `flatMap` in `extractRolesFromSource`:
`Array.isArray(value) ? value : []` for `value = source[key]`. -/
def arrayValues (source : Json) (key : String) : List Json :=
  match jsGet source key with
  | some (Json.arr xs) => xs
  | _ => []

/-- `extractRolesFromSource` of the source: `[]` for a falsy source, else the
concatenation over `ROLE_CLAIM_KEYS` of the array values found under each
key. -/
def extractRolesFromSource (source : Json) : List Json :=
  if jsFalsy source then []
  else ROLE_CLAIM_KEYS.flatMap (fun key => arrayValues source key)

/-- The spread `[...fromToken, ...fromUser]` fed to `new Set(...)` in the
`roles` memo: token-payload roles followed by user-profile roles. -/
def rolesList (payload user : Json) : List Json :=
  extractRolesFromSource payload ++ extractRolesFromSource user

/-- The `roles` memo: `new Set([...fromToken, ...fromUser])`, modelled as the
set of members of the spread list. -/
def roles (payload user : Json) : Set Json :=
  {x | x ∈ rolesList payload user}

/-- `isAdmin` of the source: `roles.has(ADMIN_ROLE)`. -/
def isAdmin (payload user : Json) : Bool :=
  (rolesList payload user).contains (Json.str ADMIN_ROLE)

/-- The delete column and delete buttons of the rendered table are guarded
by `{isAdmin && ...}` (table header and row action cell). -/
def deleteActionRendered (payload user : Json) : Bool :=
  isAdmin payload user

/-- Value of a character in the standard base64 alphabet (`A`-`Z`, `a`-`z`,
`0`-`9`, `+`, `/`); `none` for any other character, on which `atob` throws. -/
def b64Val (c : Char) : Option Nat :=
  if 'A' ≤ c ∧ c ≤ 'Z' then some (c.toNat - 65)
  else if 'a' ≤ c ∧ c ≤ 'z' then some (c.toNat - 97 + 26)
  else if '0' ≤ c ∧ c ≤ '9' then some (c.toNat - 48 + 52)
  else if c = '+' then some 62
  else if c = '/' then some 63
  else none

/-- ASCII whitespace, stripped by the forgiving-base64 decode behind `atob`. -/
def isAsciiWs (c : Char) : Bool :=
  c == ' ' || c == '\t' || c == '\n' || c == '\r' || c == '\x0c'

/-- Remove up to two trailing `=` padding characters (step 2 of
forgiving-base64 decode). -/
def stripPad (t : List Char) : List Char :=
  match t.reverse with
  | '=' :: '=' :: r => r.reverse
  | '=' :: r => r.reverse
  | _ => t

/-- Decode a whitespace-free, padding-free base64 chunk list: full groups of
four characters give three bytes, a trailing group of two or three gives one
or two bytes (excess bits discarded, as forgiving-base64 does), a trailing
single character is an error. -/
def decodeGroups : List Char → Option (List Nat)
  | [] => some []
  | c1 :: c2 :: c3 :: c4 :: rest => do
    let v1 ← b64Val c1
    let v2 ← b64Val c2
    let v3 ← b64Val c3
    let v4 ← b64Val c4
    let bs ← decodeGroups rest
    pure ((v1 * 4 + v2 / 16) :: ((v2 % 16) * 16 + v3 / 4) :: ((v3 % 4) * 64 + v4) :: bs)
  | [c1, c2] => do
    let v1 ← b64Val c1
    let v2 ← b64Val c2
    pure [v1 * 4 + v2 / 16]
  | [c1, c2, c3] => do
    let v1 ← b64Val c1
    let v2 ← b64Val c2
    let v3 ← b64Val c3
    pure [v1 * 4 + v2 / 16, (v2 % 16) * 16 + v3 / 4]
  | [_] => none

/-- The host `atob` built-in (WHATWG forgiving-base64 decode): strip ASCII
whitespace, strip padding when the length is a multiple of four, reject a
remainder of one, then decode groups. `none` models the thrown
`InvalidCharacterError`. The output is a list of bytes (the code points of
the returned latin-1 string). -/
def atob (s : List Char) : Option (List Nat) :=
  let t := s.filter (fun c => !isAsciiWs c)
  let t := if t.length % 4 = 0 then stripPad t else t
  if t.length % 4 = 1 then none
  else decodeGroups t

/-- Character of a six-bit value in the base64url alphabet (`A`-`Z`, `a`-`z`,
`0`-`9`, `-`, `_`), as used by the JWT producer for the payload segment. -/
def b64UrlChr (n : Nat) : Char :=
  if n < 26 then Char.ofNat (65 + n)
  else if n < 52 then Char.ofNat (97 + n - 26)
  else if n < 62 then Char.ofNat (48 + n - 52)
  else if n = 62 then '-'
  else '_'

/-- Unpadded base64url encoding of a byte list — the format of a JWT
segment, used to state what a well-formed token's payload segment is. -/
def base64UrlEncode : List Nat → List Char
  | [] => []
  | [b1] => [b64UrlChr (b1 / 4), b64UrlChr ((b1 % 4) * 16)]
  | [b1, b2] =>
    [b64UrlChr (b1 / 4), b64UrlChr ((b1 % 4) * 16 + b2 / 16), b64UrlChr ((b2 % 16) * 4)]
  | b1 :: b2 :: b3 :: rest =>
    b64UrlChr (b1 / 4) :: b64UrlChr ((b1 % 4) * 16 + b2 / 16) ::
      b64UrlChr ((b2 % 16) * 4 + b3 / 64) :: b64UrlChr (b3 % 64) :: base64UrlEncode rest

/-- The base64url-to-base64 normalisation of `decodeJwtPayload`: the two
global replaces turning every dash into a plus and every underscore into a
slash, per character. -/
def normB64Char (c : Char) : Char :=
  if c = '-' then '+' else if c = '_' then '/' else c

/-- UTF-8 encoding of one code point. -/
def utf8EncodeChar (c : Char) : List Nat :=
  let n := c.toNat
  if n < 0x80 then [n]
  else if n < 0x800 then [0xC0 + n / 64, 0x80 + n % 64]
  else if n < 0x10000 then [0xE0 + n / 4096, 0x80 + n / 64 % 64, 0x80 + n % 64]
  else [0xF0 + n / 262144, 0x80 + n / 4096 % 64, 0x80 + n / 64 % 64, 0x80 + n % 64]

/-- UTF-8 encoding of a string, byte by byte. -/
def utf8Encode (s : String) : List Nat :=
  s.data.flatMap utf8EncodeChar

/-- One strict UTF-8 sequence: given the lead byte and the bytes after it,
the decoded code point and the number of continuation bytes consumed.
Together with `utf8Decode` below this is the composite effect of the
percent-escaping trick in `decodeJwtPayload`: every byte of the `atob`
output is rendered as a percent escape and the result fed to
`decodeURIComponent`, which decodes the escapes as UTF-8 and throws a
`URIError` (modelled by `none`) on an invalid lead byte, a truncated
sequence, a bad continuation byte, an overlong form, a surrogate or an
out-of-range code point. -/
def utf8DecodeOne (b0 : Nat) (rest : List Nat) : Option (Nat × Nat) :=
  if b0 < 0x80 then some (b0, 0)
  else if b0 < 0xC2 then none
  else if b0 < 0xE0 then
    match rest with
    | b1 :: _ =>
      if 0x80 ≤ b1 ∧ b1 < 0xC0 then some ((b0 - 0xC0) * 64 + (b1 - 0x80), 1) else none
    | [] => none
  else if b0 < 0xF0 then
    match rest with
    | b1 :: b2 :: _ =>
      let cp := (b0 - 0xE0) * 4096 + (b1 - 0x80) * 64 + (b2 - 0x80)
      if 0x80 ≤ b1 ∧ b1 < 0xC0 ∧ 0x80 ≤ b2 ∧ b2 < 0xC0 ∧ 0x800 ≤ cp ∧
          ¬(0xD800 ≤ cp ∧ cp < 0xE000) then some (cp, 2)
      else none
    | _ => none
  else if b0 < 0xF5 then
    match rest with
    | b1 :: b2 :: b3 :: _ =>
      let cp := (b0 - 0xF0) * 262144 + (b1 - 0x80) * 4096 + (b2 - 0x80) * 64 + (b3 - 0x80)
      if 0x80 ≤ b1 ∧ b1 < 0xC0 ∧ 0x80 ≤ b2 ∧ b2 < 0xC0 ∧ 0x80 ≤ b3 ∧ b3 < 0xC0 ∧
          0x10000 ≤ cp ∧ cp < 0x110000 then some (cp, 3)
      else none
    | _ => none
  else none

/-- Strict UTF-8 decoding of a byte list, one sequence per step; the fuel
argument only bounds the number of steps (each step consumes at least the
lead byte, so the list length is always enough fuel). -/
def utf8DecodeAux : Nat → List Nat → Option (List Char)
  | _, [] => some []
  | 0, _ :: _ => none
  | fuel + 1, b0 :: rest =>
    match utf8DecodeOne b0 rest with
    | none => none
    | some (cp, k) =>
      (utf8DecodeAux fuel (rest.drop k)).map (fun cs => Char.ofNat cp :: cs)

/-- Strict UTF-8 decoding of the whole byte list. -/
def utf8Decode (bs : List Nat) : Option (List Char) :=
  utf8DecodeAux bs.length bs

/-- JSON whitespace (space, tab, line feed, carriage return), skipped
between tokens by `JSON.parse`. -/
def skipWs : List Char → List Char
  | c :: cs => if c = ' ' ∨ c = '\t' ∨ c = '\n' ∨ c = '\r' then skipWs cs else c :: cs
  | [] => []

/-- Value of a hexadecimal digit, for `\u` escapes. -/
def hexVal (c : Char) : Option Nat :=
  if '0' ≤ c ∧ c ≤ '9' then some (c.toNat - 48)
  else if 'a' ≤ c ∧ c ≤ 'f' then some (c.toNat - 87)
  else if 'A' ≤ c ∧ c ≤ 'F' then some (c.toNat - 55)
  else none

/-- Four hexadecimal digits as one number. -/
def hex4 (a b c d : Char) : Option Nat := do
  let x1 ← hexVal a
  let x2 ← hexVal b
  let x3 ← hexVal c
  let x4 ← hexVal d
  pure (x1 * 4096 + x2 * 256 + x3 * 16 + x4)

/-- Body of a JSON string, after the opening quote: returns the decoded
characters and the input following the closing quote. Escapes are decoded;
raw control characters are rejected; `\u` surrogate pairs are combined into
one code point and lone surrogates rejected (a code-point-model restriction;
the client never feeds surrogate escapes to the parser). -/
def parseStringBody : List Char → Option (List Char × List Char)
  | [] => none
  | '"' :: rest => some ([], rest)
  | '\\' :: rest =>
    match rest with
    | '"' :: r => (parseStringBody r).map (fun p => ('"' :: p.1, p.2))
    | '\\' :: r => (parseStringBody r).map (fun p => ('\\' :: p.1, p.2))
    | '/' :: r => (parseStringBody r).map (fun p => ('/' :: p.1, p.2))
    | 'b' :: r => (parseStringBody r).map (fun p => ('\x08' :: p.1, p.2))
    | 'f' :: r => (parseStringBody r).map (fun p => ('\x0c' :: p.1, p.2))
    | 'n' :: r => (parseStringBody r).map (fun p => ('\n' :: p.1, p.2))
    | 'r' :: r => (parseStringBody r).map (fun p => ('\r' :: p.1, p.2))
    | 't' :: r => (parseStringBody r).map (fun p => ('\t' :: p.1, p.2))
    | 'u' :: h1 :: h2 :: h3 :: h4 :: r =>
      (match hex4 h1 h2 h3 h4 with
       | none => none
       | some n =>
         if n < 0xD800 ∨ 0xE000 ≤ n then
           (parseStringBody r).map (fun p => (Char.ofNat n :: p.1, p.2))
         else if n < 0xDC00 then
           match r with
           | '\\' :: 'u' :: g1 :: g2 :: g3 :: g4 :: r2 =>
             (match hex4 g1 g2 g3 g4 with
              | none => none
              | some m =>
                if 0xDC00 ≤ m ∧ m < 0xE000 then
                  (parseStringBody r2).map
                    (fun p =>
                      (Char.ofNat (0x10000 + (n - 0xD800) * 1024 + (m - 0xDC00)) :: p.1, p.2))
                else none)
           | _ => none
         else none)
    | _ => none
  | c :: rest =>
    if c.toNat < 0x20 then none
    else (parseStringBody rest).map (fun p => (c :: p.1, p.2))

/-- Decimal digit test for JSON number parsing. -/
def isDigitChar (c : Char) : Bool := '0' ≤ c && c ≤ '9'

/-- Optional fraction part of a JSON number literal. -/
def parseFracPart : List Char → Option (List Char × List Char)
  | '.' :: r =>
    let ds := r.takeWhile isDigitChar
    if ds.isEmpty then none else some ('.' :: ds, r.dropWhile isDigitChar)
  | cs => some ([], cs)

/-- Optional exponent part of a JSON number literal. -/
def parseExpPart : List Char → Option (List Char × List Char)
  | c :: r =>
    if c = 'e' ∨ c = 'E' then
      let sg : List Char × List Char :=
        match r with
        | '+' :: t => (['+'], t)
        | '-' :: t => (['-'], t)
        | t => ([], t)
      let ds := sg.2.takeWhile isDigitChar
      if ds.isEmpty then none else some (c :: (sg.1 ++ ds), sg.2.dropWhile isDigitChar)
    else some ([], c :: r)
  | [] => some ([], [])

/-- A JSON number literal per the JSON grammar (optional minus, integer part
without leading zeros, optional fraction, optional exponent); yields the
literal text and the remaining input. -/
def parseNumber (cs : List Char) : Option (String × List Char) :=
  let sgn : List Char × List Char :=
    match cs with
    | '-' :: r => (['-'], r)
    | r => ([], r)
  match sgn.2 with
  | [] => none
  | c :: r =>
    if isDigitChar c then
      let ip : List Char × List Char :=
        if c = '0' then ([c], r)
        else (c :: r.takeWhile isDigitChar, r.dropWhile isDigitChar)
      match parseFracPart ip.2 with
      | none => none
      | some (fracPart, cs3) =>
        match parseExpPart cs3 with
        | none => none
        | some (expPart, cs4) =>
          some (String.mk (sgn.1 ++ ip.1 ++ fracPart ++ expPart), cs4)
    else none

mutual

/-- One JSON value at the head of the input (after leading whitespace),
with the remaining input. The fuel argument bounds recursion depth; the
top-level entry point supplies more fuel than any input can consume. -/
def parseValue : Nat → List Char → Option (Json × List Char)
  | 0, _ => none
  | Nat.succ fuel, cs =>
    match skipWs cs with
    | 'n' :: 'u' :: 'l' :: 'l' :: rest => some (Json.null, rest)
    | 't' :: 'r' :: 'u' :: 'e' :: rest => some (Json.bool true, rest)
    | 'f' :: 'a' :: 'l' :: 's' :: 'e' :: rest => some (Json.bool false, rest)
    | '"' :: rest => (parseStringBody rest).map (fun p => (Json.str (String.mk p.1), p.2))
    | '[' :: rest =>
      (match skipWs rest with
       | ']' :: r => some (Json.arr [], r)
       | cs2 => (parseItems fuel cs2).map (fun p => (Json.arr p.1, p.2)))
    | '{' :: rest =>
      (match skipWs rest with
       | '}' :: r => some (Json.obj [], r)
       | cs2 => (parseMembers fuel cs2).map (fun p => (Json.obj p.1, p.2)))
    | cs1 => (parseNumber cs1).map (fun p => (Json.num p.1, p.2))

/-- The elements of a non-empty JSON array, up to and including the closing
bracket. -/
def parseItems : Nat → List Char → Option (List Json × List Char)
  | 0, _ => none
  | Nat.succ fuel, cs => do
    let (j, rest) ← parseValue fuel cs
    match skipWs rest with
    | ',' :: r => (parseItems fuel r).map (fun p => (j :: p.1, p.2))
    | ']' :: r => some ([j], r)
    | _ => none

/-- The members of a non-empty JSON object, up to and including the closing
brace. -/
def parseMembers : Nat → List Char → Option (List (String × Json) × List Char)
  | 0, _ => none
  | Nat.succ fuel, cs =>
    match skipWs cs with
    | '"' :: rest => do
      let (k, r1) ← parseStringBody rest
      match skipWs r1 with
      | ':' :: r2 => do
        let (v, r3) ← parseValue fuel r2
        match skipWs r3 with
        | ',' :: r4 => (parseMembers fuel r4).map (fun p => ((String.mk k, v) :: p.1, p.2))
        | '}' :: r4 => some ([(String.mk k, v)], r4)
        | _ => none
      | _ => none
    | _ => none

end

/-- The host `JSON.parse` built-in: one JSON value, possibly surrounded by
whitespace, and nothing else. `none` models the thrown `SyntaxError`. -/
def jsonParse (s : String) : Option Json :=
  match parseValue (4 * s.data.length + 8) s.data with
  | some (j, rest) => if (skipWs rest).isEmpty then some j else none
  | none => none

/-- JavaScript `token.split(".")` on the character list of the token: the
maximal dot-free groups, with empty groups kept (splitting the empty string
gives one empty group, as in JavaScript). -/
def splitDots : List Char → List (List Char)
  | [] => [[]]
  | c :: cs =>
    if c = '.' then [] :: splitDots cs
    else
      match splitDots cs with
      | [] => [[c]]
      | g :: gs => (c :: g) :: gs

/-- `decodeJwtPayload` of the source, instrumented with the `console.error`
diagnostic: the second component is `true` exactly when the `catch` block
runs (so a diagnostic is logged). Stage by stage: a falsy (empty) token
returns null early; destructuring `[, base64Payload]` takes group 1 of the
dot-split and a missing or empty group returns null from inside the `try`
(no diagnostic); then `atob` on the dash/underscore-normalised segment, the
percent-escape UTF-8 decode, and `JSON.parse` each throw on failure, landing
in `catch` which logs and returns null. On success the parsed value itself
is returned (so a payload spelling the JSON value `null` is
indistinguishable from failure, exactly as in the JavaScript). -/
def decodeJwtPayloadE (token : String) : Json × Bool :=
  if token = "" then (Json.null, false)
  else
    match (splitDots token.data).get? 1 with
    | none => (Json.null, false)
    | some seg =>
      if seg.isEmpty then (Json.null, false)
      else
        match atob (seg.map normB64Char) with
        | none => (Json.null, true)
        | some bytes =>
          match utf8Decode bytes with
          | none => (Json.null, true)
          | some chars =>
            match jsonParse (String.mk chars) with
            | none => (Json.null, true)
            | some j => (j, false)

/-- `decodeJwtPayload` of the source: the returned value, diagnostics
dropped. -/
def decodeJwtPayload (token : String) : Json :=
  (decodeJwtPayloadE token).1

/-- The whitespace set of JavaScript `String.prototype.trim` (WhiteSpace and
LineTerminator code points). -/
def isJsWs (c : Char) : Bool :=
  c == ' ' || c == '\t' || c == '\n' || c == '\r' || c == '\x0b' || c == '\x0c' ||
  c == ' ' || c == ' ' || (' ' ≤ c && c ≤ ' ') || c == ' ' ||
  c == ' ' || c == ' ' || c == ' ' || c == '　' || c == '﻿'

/-- JavaScript `String.prototype.trim`: drop leading and trailing
whitespace. -/
def jsTrim (s : String) : String :=
  String.mk (((s.data.dropWhile isJsWs).reverse.dropWhile isJsWs).reverse)

/-- The request body built by `handleCreate` (`dto`): trimmed origin,
destination and transport mode, and a description normalised to its trimmed
value or null (`descricao.trim() || null`). -/
structure CreateDto where
  origemNome : String
  destinoNome : String
  descricao : Option String
  modoTransporte : String
deriving Repr

/-- The `useState` cells of `ViagensApp`, in declaration order. `viagens`
holds the parsed server records (arbitrary JSON values, as the code stores
whatever array the server returns); `deletingId` is the identifier of the
in-flight delete, `none` for null. -/
structure AppState where
  viagens : List Json
  loading : Bool
  error : Option String
  submitting : Bool
  deletingId : Option Json
  token : String
  origem : String
  destino : String
  descricao : String
  modoTransporte : String
deriving Repr

/-- The initial state of the component: the `useState` initialisers. -/
def initialState : AppState :=
  { viagens := [], loading := false, error := none, submitting := false,
    deletingId := none, token := "", origem := "", destino := "",
    descricao := "", modoTransporte := "" }

/-- An HTTP response as the handlers observe it: `ok` is `res.ok`
(status in the 2xx range), `status` is `res.status`, `body` is the text the
handler would read via `res.text()` or parse via `res.json()`. -/
structure HttpResponse where
  ok : Bool
  status : Nat
  body : String
deriving Repr

/-- The message of the host exception thrown by `res.json()` on a non-JSON
body; its exact text is host-defined and nothing in the client inspects it. -/
def responseJsonErrorMessage : String := "Unexpected token in JSON"

/-- `fetchViagens` of the source, as one completed transition from an
initial state and the observed response to the final state, paired with the
bearer token of the issued request (`none` when no request is made).
`providedToken` is the optional argument (`none` models calling it with no
argument); the `providedToken ?? token` fallback and the `!activeToken`
early return are as in the code. `setLoading(true)` followed by the
`finally` `setLoading(false)` nets to `loading := false` in every completed
branch; `setError(null)` runs before the request. A non-ok status raises
`Erro ao carregar: <status>` with no list change; an ok response replaces
the list with the parsed body when it is an array and with `[]` otherwise;
an unparsable ok body sets the host error message. -/
def fetchViagens (providedToken : Option String) (resp : HttpResponse)
    (s : AppState) : AppState × Option String :=
  let activeToken := providedToken.getD s.token
  if activeToken = "" then (s, none)
  else
    let started := { s with loading := false, error := none }
    if resp.ok then
      match jsonParse resp.body with
      | some (Json.arr xs) => ({ started with viagens := xs }, some activeToken)
      | some _ => ({ started with viagens := [] }, some activeToken)
      | none =>
        ({ started with error := some responseJsonErrorMessage }, some activeToken)
    else
      ({ started with error := some ("Erro ao carregar: " ++ toString resp.status) },
        some activeToken)

/-- The validation message of `handleCreate`. -/
def createValidationMessage : String :=
  "Origem, destino e modo de transporte são obrigatórios."

/-- `handleCreate` of the source, as one completed transition: returns the
final state and the request body of the issued POST (`none` when validation
failed and no request was made). Validation tests the raw (untrimmed) field
values for emptiness after clearing the error; the `dto` carries the
trimmed values with the description collapsed to null when its trim is
empty. On a non-ok response the error carries the status and the verbatim
body text; on an ok response the parsed body is prepended to the list and
the form fields cleared; `setSubmitting` nets to `false`. -/
def handleCreate (resp : HttpResponse) (s : AppState) : AppState × Option CreateDto :=
  let cleared := { s with error := none }
  if s.origem = "" ∨ s.destino = "" ∨ s.modoTransporte = "" then
    ({ cleared with error := some createValidationMessage }, none)
  else
    let dto : CreateDto :=
      { origemNome := jsTrim s.origem, destinoNome := jsTrim s.destino,
        descricao := if jsTrim s.descricao = "" then none else some (jsTrim s.descricao),
        modoTransporte := jsTrim s.modoTransporte }
    let finished := { cleared with submitting := false }
    if resp.ok then
      match jsonParse resp.body with
      | some created =>
        ({ finished with
            viagens := created :: s.viagens, origem := "", destino := "",
            descricao := "", modoTransporte := "" }, some dto)
      | none => ({ finished with error := some responseJsonErrorMessage }, some dto)
    else
      ({ finished with
          error := some ("Erro ao criar: " ++ toString resp.status ++ " " ++ resp.body) },
        some dto)

/-- `handleDelete` of the source, as one completed transition: given the
computed `isAdmin` flag, the clicked record's identifier (`viagem.id`,
`none` for a missing field) and the observed response, returns the final
state and whether a DELETE request was issued. The admin gate returns
before any state change; otherwise the error is cleared and `setDeletingId`
nets to `none` via the `finally`. A non-ok response raises
`Erro ao excluir: <status> <body>` and leaves the list alone; an ok
response removes the records whose `id` field equals the given identifier. -/
def handleDelete (admin : Bool) (id : Option Json) (resp : HttpResponse)
    (s : AppState) : AppState × Bool :=
  if admin = false then (s, false)
  else
    let started := { s with error := none, deletingId := none }
    if resp.ok then
      ({ started with viagens := s.viagens.filter (fun v => !(jsGet v "id" == id)) }, true)
    else
      ({ started with
          error := some ("Erro ao excluir: " ++ toString resp.status ++ " " ++ resp.body) },
        true)

/-- `refreshToken` of the source: on success stores and returns the fresh
token; on failure (`none`) sets the error message and returns the empty
string, leaving the stored token alone. -/
def refreshToken (tokenResult : Option String) (s : AppState) : AppState × String :=
  match tokenResult with
  | some t => ({ s with token := t }, t)
  | none =>
    ({ s with error := some "Não foi possível recuperar o token de acesso." }, "")

/-- The authentication `useEffect` of the source, as one completed run:
when `isAuthenticated` is false it resets the token to the empty string and
the list to the empty list and returns; otherwise it refreshes the token
and, unless the run was cancelled or the refreshed token is empty, fetches
the list with the fresh token. -/
def authEffect (isAuthenticated cancelled : Bool) (tokenResult : Option String)
    (resp : HttpResponse) (s : AppState) : AppState :=
  if isAuthenticated = false then { s with token := "", viagens := [] }
  else
    let r := refreshToken tokenResult s
    if cancelled = false ∧ r.2 ≠ "" then (fetchViagens (some r.2) resp r.1).1
    else r.1

theorem jsGet_of_falsy (s : Json) (k : String) (h : jsFalsy s = true) :
    jsGet s k = none := by
  cases s <;> simp_all [jsGet, jsFalsy]

theorem mem_arrayValues (s : Json) (k : String) (x : Json) :
    x ∈ arrayValues s k ↔ ∃ xs, jsGet s k = some (Json.arr xs) ∧ x ∈ xs := by
  unfold arrayValues
  rcases h : jsGet s k with _ | v
  · simp [h]
  · cases v <;> simp [h]

theorem mem_extractRolesFromSource (s : Json) (x : Json) :
    x ∈ extractRolesFromSource s ↔
      ∃ k ∈ ROLE_CLAIM_KEYS, ∃ xs, jsGet s k = some (Json.arr xs) ∧ x ∈ xs := by
  unfold extractRolesFromSource
  by_cases h : jsFalsy s = true
  · simp only [h, if_true]
    constructor
    · intro hx; simp at hx
    · rintro ⟨k, _, xs, hget, _⟩
      rw [jsGet_of_falsy s k h] at hget
      exact absurd hget (by simp)
  · rw [if_neg h, List.mem_flatMap]
    constructor
    · rintro ⟨k, hk, hx⟩
      exact ⟨k, hk, (mem_arrayValues s k x).1 hx⟩
    · rintro ⟨k, hk, hx⟩
      exact ⟨k, hk, (mem_arrayValues s k x).2 hx⟩

theorem beq_str_left (a : String) (y : Json) :
    (Json.str a == y) = true ↔ Json.str a = y := by
  cases y <;> simp [(· == ·), Json.beq]

theorem contains_str_iff (l : List Json) (a : String) :
    l.contains (Json.str a) = true ↔ Json.str a ∈ l := by
  induction l with
  | nil => simp
  | cons y ys ih =>
    simp only [List.contains_cons, Bool.or_eq_true, ih, List.mem_cons]
    rw [beq_str_left]

theorem isAdmin_iff (p u : Json) :
    isAdmin p u = true ↔ Json.str ADMIN_ROLE ∈ roles p u := by
  unfold isAdmin roles
  rw [contains_str_iff]
  simp [Set.mem_setOf_eq]

/-- Claim C2: for every pair of candidate sources (decoded token payload and
user profile), a value belongs to the derived role set exactly when it
belongs to some array found under one of the recognized claim keys in one of
the two sources — absent sources and missing or non-array values contribute
nothing — and the set is unchanged when the two sources are swapped (order
independence); deduplication is inherent in the set. -/
theorem roles_union_characterization (p u : Json) :
    (∀ x, x ∈ roles p u ↔
      ∃ k ∈ ROLE_CLAIM_KEYS, ∃ src ∈ [p, u], ∃ xs,
        jsGet src k = some (Json.arr xs) ∧ x ∈ xs) ∧
    roles p u = roles u p := by
  constructor
  · intro x
    show x ∈ rolesList p u ↔ _
    unfold rolesList
    rw [List.mem_append, mem_extractRolesFromSource, mem_extractRolesFromSource]
    constructor
    · rintro (⟨k, hk, xs, hget, hx⟩ | ⟨k, hk, xs, hget, hx⟩)
      · exact ⟨k, hk, p, by simp, xs, hget, hx⟩
      · exact ⟨k, hk, u, by simp, xs, hget, hx⟩
    · rintro ⟨k, hk, src, hsrc, xs, hget, hx⟩
      rcases (by simpa using hsrc : src = p ∨ src = u) with rfl | rfl
      · exact Or.inl ⟨k, hk, xs, hget, hx⟩
      · exact Or.inr ⟨k, hk, xs, hget, hx⟩
  · ext x
    show x ∈ rolesList p u ↔ x ∈ rolesList u p
    unfold rolesList
    rw [List.mem_append, List.mem_append]
    exact Or.comm

/-- Claim C3: the delete action is rendered if and only if the fixed
administrator role string is a member of the derived role set, and when it
is not a member, invoking `handleDelete` issues no request and leaves the
state unchanged (the admin gate returns before any effect). -/
theorem delete_admin_gate (p u : Json) (id : Option Json) (resp : HttpResponse)
    (s : AppState) :
    (deleteActionRendered p u = true ↔ Json.str ADMIN_ROLE ∈ roles p u) ∧
    (Json.str ADMIN_ROLE ∉ roles p u →
      handleDelete (isAdmin p u) id resp s = (s, false)) := by
  refine ⟨isAdmin_iff p u, fun hmem => ?_⟩
  have hA : isAdmin p u = false := by
    cases hA : isAdmin p u
    · rfl
    · exact absurd ((isAdmin_iff p u).1 hA) hmem
  simp [handleDelete, hA]

/-- Witness for C3 at concrete inputs: with both sources null, the delete
action is not rendered and invoking the handler changes nothing. -/
theorem delete_admin_gate_witness :
    (deleteActionRendered Json.null Json.null = true ↔
      Json.str ADMIN_ROLE ∈ roles Json.null Json.null) ∧
    handleDelete (isAdmin Json.null Json.null) none
      { ok := false, status := 403, body := "x" } initialState =
      (initialState, false) := by
  have h := delete_admin_gate Json.null Json.null none
    { ok := false, status := 403, body := "x" } initialState
  refine ⟨h.1, h.2 ?_⟩
  intro hx
  simp [roles, rolesList, extractRolesFromSource, jsFalsy] at hx

/-- Claim C5: a delete request answered with a non-success status leaves the
displayed trip list unchanged, and the surfaced error message contains the
status code and the response body text (it is exactly
`Erro ao excluir: <status> <body>`). -/
theorem handleDelete_non_success (id : Option Json) (resp : HttpResponse)
    (s : AppState) (h : resp.ok = false) :
    (handleDelete true id resp s).1.viagens = s.viagens ∧
    ∃ msg, (handleDelete true id resp s).1.error = some msg ∧
      (∃ a b, msg = a ++ (toString resp.status ++ b)) ∧
      (∃ c d, msg = c ++ (resp.body ++ d)) := by
  refine ⟨by simp [handleDelete, h],
    "Erro ao excluir: " ++ toString resp.status ++ " " ++ resp.body,
    by simp [handleDelete, h],
    ⟨"Erro ao excluir: ", " " ++ resp.body, ?_⟩,
    ⟨"Erro ao excluir: " ++ toString resp.status ++ " ", "", ?_⟩⟩
  · apply String.ext
    simp [String.data_append, List.append_assoc]
  · apply String.ext
    simp [String.data_append, List.append_assoc]

/-- Witness for C5 at concrete inputs: a 403 on delete from the initial
state keeps the (empty) list and surfaces a message containing 403 and the
body. -/
theorem handleDelete_non_success_witness :
    (handleDelete true none { ok := false, status := 403, body := "Forbidden" }
        initialState).1.viagens = initialState.viagens ∧
    ∃ msg,
      (handleDelete true none { ok := false, status := 403, body := "Forbidden" }
          initialState).1.error = some msg ∧
      (∃ a b, msg = a ++ (toString (403 : Nat) ++ b)) ∧
      (∃ c d, msg = c ++ ("Forbidden" ++ d)) :=
  handleDelete_non_success none { ok := false, status := 403, body := "Forbidden" }
    initialState rfl

/-- Claim C6: the list operation is a no-op (no request, no state change)
whenever the effective bearer token is empty, and on a successful response
whose parsed body is not an array the displayed list becomes empty with no
error shown. -/
theorem fetchViagens_empty_token_and_non_array (pt : Option String)
    (resp : HttpResponse) (s : AppState) :
    (pt.getD s.token = "" → fetchViagens pt resp s = (s, none)) ∧
    (∀ j, pt.getD s.token ≠ "" → resp.ok = true → jsonParse resp.body = some j →
      (∀ xs, j ≠ Json.arr xs) →
      (fetchViagens pt resp s).1.viagens = [] ∧
      (fetchViagens pt resp s).1.error = none) := by
  constructor
  · intro h
    simp [fetchViagens, h]
  · intro j hne hok hparse harr
    cases j <;> simp_all [fetchViagens]

/-- Witness for C6 at concrete inputs: with an empty provided token the
state is untouched and no request issued; with a non-empty token and a
successful response whose body is the non-array object `42`, the list is
emptied and no error shown. -/
theorem fetchViagens_empty_token_and_non_array_witness :
    fetchViagens (some "") { ok := true, status := 200, body := "42" }
      initialState = (initialState, none) ∧
    ((fetchViagens (some "tok") { ok := true, status := 200, body := "42" }
        { initialState with viagens := [Json.str "old"] }).1.viagens = [] ∧
      (fetchViagens (some "tok") { ok := true, status := 200, body := "42" }
        { initialState with viagens := [Json.str "old"] }).1.error = none) := by
  constructor
  · exact (fetchViagens_empty_token_and_non_array (some "")
      { ok := true, status := 200, body := "42" } initialState).1 rfl
  · exact (fetchViagens_empty_token_and_non_array (some "tok")
      { ok := true, status := 200, body := "42" }
      { initialState with viagens := [Json.str "old"] }).2 (Json.num "42")
      (by decide) rfl rfl (by intro xs h; cases h)

/-- Claim C7: a create submission with an empty origin, destination or
transport mode issues no request and shows the validation message; when all
three are non-empty the issued request body carries the trimmed origin,
destination and transport mode and a description normalised to its trimmed
value, or null when the trimmed description is blank. -/
theorem handleCreate_validation_and_dto (resp : HttpResponse) (s : AppState) :
    ((s.origem = "" ∨ s.destino = "" ∨ s.modoTransporte = "") →
      handleCreate resp s = ({ s with error := some createValidationMessage }, none)) ∧
    (s.origem ≠ "" → s.destino ≠ "" → s.modoTransporte ≠ "" →
      (handleCreate resp s).2 = some
        { origemNome := jsTrim s.origem, destinoNome := jsTrim s.destino,
          descricao := if jsTrim s.descricao = "" then none else some (jsTrim s.descricao),
          modoTransporte := jsTrim s.modoTransporte }) := by
  constructor
  · intro h
    simp only [handleCreate, if_pos h]
  · intro h1 h2 h3
    have hcond : ¬(s.origem = "" ∨ s.destino = "" ∨ s.modoTransporte = "") := by
      tauto
    simp only [handleCreate, if_neg hcond]
    rcases hok : resp.ok
    · simp
    · rcases hp : jsonParse resp.body with _ | j <;> simp

/-- Witness for C7 at concrete inputs: an empty destination blocks the
request and shows the validation message; a fully filled form issues a
request whose body carries the trimmed values with a blank description
normalised to null. -/
theorem handleCreate_validation_and_dto_witness :
    handleCreate { ok := true, status := 200, body := "42" }
      { initialState with origem := "a" } =
      ({ initialState with origem := "a", error := some createValidationMessage },
        none) ∧
    (handleCreate { ok := true, status := 200, body := "42" }
      { initialState with origem := " a ", destino := "b", descricao := "  ",
                          modoTransporte := "c" }).2 = some
      { origemNome := "a", destinoNome := "b", descricao := none,
        modoTransporte := "c" } := by
  constructor
  · exact (handleCreate_validation_and_dto { ok := true, status := 200, body := "42" }
      { initialState with origem := "a" }).1 (Or.inr (Or.inl rfl))
  · have h := (handleCreate_validation_and_dto { ok := true, status := 200, body := "42" }
      { initialState with origem := " a ", destino := "b", descricao := "  ",
                          modoTransporte := "c" }).2 (by decide) (by decide) (by decide)
    rw [h]
    rfl

/-- Claim C10: the create validation tests the untrimmed field values, so a
whitespace-only origin passes validation and a request is issued whose
origin field is the empty string after trimming. -/
theorem handleCreate_whitespace_origin_passes :
    (handleCreate { ok := true, status := 200, body := "42" }
      { initialState with origem := " ", destino := "d", modoTransporte := "m" }).2 =
      some { origemNome := "", destinoNome := "d", descricao := none,
             modoTransporte := "m" } := by
  rfl

/-- Claim C9: a completed run of the authentication effect in the
unauthenticated state resets the stored bearer token to the empty string and
the displayed trip list to the empty list, whatever the other inputs. -/
theorem authEffect_unauthenticated (cancelled : Bool) (tokenResult : Option String)
    (resp : HttpResponse) (s : AppState) :
    authEffect false cancelled tokenResult resp s =
      { s with token := "", viagens := [] } ∧
    (authEffect false cancelled tokenResult resp s).token = "" ∧
    (authEffect false cancelled tokenResult resp s).viagens = [] := by
  refine ⟨rfl, ?_, ?_⟩ <;> simp [authEffect]

/-- Claim C4: `decodeJwtPayload` is total over all string inputs — it is a
plain Lean function, never raising to its caller by construction — and it
yields the absent (null) result on every malformed input: the empty string,
a missing or empty payload segment, invalid base64, an invalid UTF-8 byte
sequence, or invalid JSON. -/
theorem decodeJwtPayload_total_malformed (token : String)
    (h : token = "" ∨ (splitDots token.data).get? 1 = none ∨
      (splitDots token.data).get? 1 = some [] ∨
      ∃ seg, (splitDots token.data).get? 1 = some seg ∧
        (atob (seg.map normB64Char) = none ∨
          ∃ bytes, atob (seg.map normB64Char) = some bytes ∧
            (utf8Decode bytes = none ∨
              ∃ chars, utf8Decode bytes = some chars ∧
                jsonParse (String.mk chars) = none))) :
    decodeJwtPayload token = Json.null := by
  unfold decodeJwtPayload decodeJwtPayloadE
  by_cases ht : token = ""
  · simp [ht]
  · rw [if_neg ht]
    rcases h with h | h | h | ⟨seg, hseg, hrest⟩
    · exact absurd h ht
    · rw [h]
    · rw [h]
      simp
    · simp only [hseg]
      by_cases he : seg.isEmpty = true
      · simp [he]
      · rcases hrest with ha | ⟨bytes, hb, hrest2⟩
        · simp [he, ha]
        · rcases hrest2 with hu | ⟨chars, hc, hj⟩
          · simp [he, hb, hu]
          · simp [he, hb, hc, hj]

/-- Witness for C4 at a concrete input: a token with no dot at all (missing
payload segment) yields null. -/
theorem decodeJwtPayload_total_malformed_witness :
    decodeJwtPayload "not-a-token" = Json.null :=
  decodeJwtPayload_total_malformed "not-a-token" (Or.inr (Or.inl rfl))

/-- Counterexample to claim C8 as stated: the input "abc" is a malformed
token (its payload segment is missing), yet `decodeJwtPayload` returns the
absent result without logging any diagnostic — the `if (!base64Payload)
return null` early return inside `try` never reaches the `catch` block that
does the `console.error` logging. The second component of the instrumented
decoder is the logged-a-diagnostic flag. -/
theorem decodeJwtPayload_missing_segment_no_log :
    decodeJwtPayloadE "abc" = (Json.null, false) := rfl

/-- Claim C8 amended: for every token whose payload segment is present and
non-empty but whose decoding then fails (invalid base64, invalid UTF-8
bytes, or invalid JSON), `decodeJwtPayload` logs a diagnostic in addition to
yielding the absent result; inputs whose payload segment is missing or empty
yield the absent result silently. -/
theorem decodeJwtPayload_decode_failure_logs (token : String) (seg : List Char)
    (hne : token ≠ "")
    (hseg : (splitDots token.data).get? 1 = some seg)
    (hsegne : seg.isEmpty = false)
    (h : atob (seg.map normB64Char) = none ∨
      ∃ bytes, atob (seg.map normB64Char) = some bytes ∧
        (utf8Decode bytes = none ∨
          ∃ chars, utf8Decode bytes = some chars ∧
            jsonParse (String.mk chars) = none)) :
    decodeJwtPayloadE token = (Json.null, true) := by
  unfold decodeJwtPayloadE
  rw [if_neg hne]
  simp only [hseg]
  rcases h with ha | ⟨bytes, hb, hrest⟩
  · simp [hsegne, ha]
  · rcases hrest with hu | ⟨chars, hc, hj⟩
    · simp [hsegne, hb, hu]
    · simp [hsegne, hb, hc, hj]

/-- Witness for the amended C8 at a concrete input: the payload segment `!`
is not base64, so the decoder logs and yields null. -/
theorem decodeJwtPayload_decode_failure_logs_witness :
    decodeJwtPayloadE "a.!.b" = (Json.null, true) :=
  decodeJwtPayload_decode_failure_logs "a.!.b" ['!'] (by decide) rfl rfl
    (Or.inl rfl)

theorem b64Val_norm : ∀ v < 64, b64Val (normB64Char (b64UrlChr v)) = some v := by
  decide

theorem b64UrlChr_not_ws : ∀ v < 64, isAsciiWs (normB64Char (b64UrlChr v)) = false := by
  decide

theorem b64UrlChr_ne_pad : ∀ v < 64, normB64Char (b64UrlChr v) ≠ '=' := by
  decide

theorem b64UrlChr_ne_dot : ∀ v < 64, b64UrlChr v ≠ '.' := by
  decide

theorem mem_base64UrlEncode : ∀ (bs : List Nat), (∀ b ∈ bs, b < 256) →
    ∀ c ∈ base64UrlEncode bs, ∃ v, v < 64 ∧ c = b64UrlChr v
  | [], _, c, hc => absurd hc (by simp [base64UrlEncode])
  | [b1], hb, c, hc => by
    have h1 : b1 < 256 := hb b1 (by simp)
    simp only [base64UrlEncode, List.mem_cons, List.not_mem_nil, or_false] at hc
    rcases hc with rfl | rfl
    · exact ⟨b1 / 4, by omega, rfl⟩
    · exact ⟨(b1 % 4) * 16, by omega, rfl⟩
  | [b1, b2], hb, c, hc => by
    have h1 : b1 < 256 := hb b1 (by simp)
    have h2 : b2 < 256 := hb b2 (by simp)
    simp only [base64UrlEncode, List.mem_cons, List.not_mem_nil, or_false] at hc
    rcases hc with rfl | rfl | rfl
    · exact ⟨b1 / 4, by omega, rfl⟩
    · exact ⟨(b1 % 4) * 16 + b2 / 16, by omega, rfl⟩
    · exact ⟨(b2 % 16) * 4, by omega, rfl⟩
  | b1 :: b2 :: b3 :: r4 :: rest, hb, c, hc => by
    have h1 : b1 < 256 := hb b1 (by simp)
    have h2 : b2 < 256 := hb b2 (by simp)
    have h3 : b3 < 256 := hb b3 (by simp)
    simp only [base64UrlEncode, List.mem_cons] at hc
    rcases hc with rfl | rfl | rfl | rfl | hc
    · exact ⟨b1 / 4, by omega, rfl⟩
    · exact ⟨(b1 % 4) * 16 + b2 / 16, by omega, rfl⟩
    · exact ⟨(b2 % 16) * 4 + b3 / 64, by omega, rfl⟩
    · exact ⟨b3 % 64, by omega, rfl⟩
    · exact mem_base64UrlEncode (r4 :: rest) (fun b hbm => hb b (by simp [hbm])) c hc
  | [b1, b2, b3], hb, c, hc => by
    have h1 : b1 < 256 := hb b1 (by simp)
    have h2 : b2 < 256 := hb b2 (by simp)
    have h3 : b3 < 256 := hb b3 (by simp)
    simp only [base64UrlEncode, List.mem_cons] at hc
    rcases hc with rfl | rfl | rfl | rfl | hc
    · exact ⟨b1 / 4, by omega, rfl⟩
    · exact ⟨(b1 % 4) * 16 + b2 / 16, by omega, rfl⟩
    · exact ⟨(b2 % 16) * 4 + b3 / 64, by omega, rfl⟩
    · exact ⟨b3 % 64, by omega, rfl⟩
    · simp [base64UrlEncode] at hc

theorem length_base64UrlEncode_mod : ∀ bs : List Nat,
    (base64UrlEncode bs).length % 4 = 0 ∨ (base64UrlEncode bs).length % 4 = 2 ∨
    (base64UrlEncode bs).length % 4 = 3
  | [] => by simp [base64UrlEncode]
  | [_] => by simp [base64UrlEncode]
  | [_, _] => by simp [base64UrlEncode]
  | b1 :: b2 :: b3 :: rest => by
    have ih := length_base64UrlEncode_mod rest
    simp only [base64UrlEncode, List.length_cons]
    omega

theorem stripPad_no_pad (t : List Char) (h : '=' ∉ t) : stripPad t = t := by
  unfold stripPad
  split
  · next r heq =>
    exact absurd (by rw [← List.mem_reverse, heq]; simp : '=' ∈ t) h
  · next r heq =>
    exact absurd (by rw [← List.mem_reverse, heq]; simp : '=' ∈ t) h
  · rfl

theorem decodeGroups_encode : ∀ (bs : List Nat), (∀ b ∈ bs, b < 256) →
    decodeGroups ((base64UrlEncode bs).map normB64Char) = some bs
  | [], _ => rfl
  | [b1], hb => by
    have h1 : b1 < 256 := hb b1 (by simp)
    have e1 := b64Val_norm (b1 / 4) (by omega)
    have e2 := b64Val_norm ((b1 % 4) * 16) (by omega)
    simp only [base64UrlEncode, List.map_cons, List.map_nil, decodeGroups, e1, e2,
      Option.bind_eq_bind, Option.some_bind, Option.pure_def, Option.some.injEq,
      List.cons.injEq, and_true]
    omega
  | [b1, b2], hb => by
    have h1 : b1 < 256 := hb b1 (by simp)
    have h2 : b2 < 256 := hb b2 (by simp)
    have e1 := b64Val_norm (b1 / 4) (by omega)
    have e2 := b64Val_norm ((b1 % 4) * 16 + b2 / 16) (by omega)
    have e3 := b64Val_norm ((b2 % 16) * 4) (by omega)
    simp only [base64UrlEncode, List.map_cons, List.map_nil, decodeGroups, e1, e2, e3,
      Option.bind_eq_bind, Option.some_bind, Option.pure_def, Option.some.injEq,
      List.cons.injEq, and_true]
    omega
  | b1 :: b2 :: b3 :: rest, hb => by
    have h1 : b1 < 256 := hb b1 (by simp)
    have h2 : b2 < 256 := hb b2 (by simp)
    have h3 : b3 < 256 := hb b3 (by simp)
    have e1 := b64Val_norm (b1 / 4) (by omega)
    have e2 := b64Val_norm ((b1 % 4) * 16 + b2 / 16) (by omega)
    have e3 := b64Val_norm ((b2 % 16) * 4 + b3 / 64) (by omega)
    have e4 := b64Val_norm (b3 % 64) (by omega)
    have ih := decodeGroups_encode rest (fun b hbm => hb b (by simp [hbm]))
    simp only [base64UrlEncode, List.map_cons, decodeGroups, e1, e2, e3, e4, ih,
      Option.bind_eq_bind, Option.some_bind, Option.pure_def, Option.some.injEq,
      List.cons.injEq, and_true]
    omega

theorem atob_encode (bs : List Nat) (hb : ∀ b ∈ bs, b < 256) :
    atob ((base64UrlEncode bs).map normB64Char) = some bs := by
  have hchars : ∀ c ∈ (base64UrlEncode bs).map normB64Char,
      isAsciiWs c = false ∧ c ≠ '=' := by
    intro c hc
    rcases List.mem_map.1 hc with ⟨c0, hc0, rfl⟩
    rcases mem_base64UrlEncode bs hb c0 hc0 with ⟨v, hv, rfl⟩
    exact ⟨b64UrlChr_not_ws v hv, b64UrlChr_ne_pad v hv⟩
  have hfilter : ((base64UrlEncode bs).map normB64Char).filter (fun c => !isAsciiWs c) =
      (base64UrlEncode bs).map normB64Char :=
    List.filter_eq_self.2 (fun c hc => by simp [(hchars c hc).1])
  have hnopad : '=' ∉ (base64UrlEncode bs).map normB64Char := by
    intro hmem
    exact (hchars '=' hmem).2 rfl
  have hlen : ((base64UrlEncode bs).map normB64Char).length % 4 ≠ 1 := by
    rw [List.length_map]
    rcases length_base64UrlEncode_mod bs with h | h | h <;> omega
  simp only [atob]
  rw [hfilter]
  have hsp : (if ((base64UrlEncode bs).map normB64Char).length % 4 = 0 then
      stripPad ((base64UrlEncode bs).map normB64Char)
      else (base64UrlEncode bs).map normB64Char) = (base64UrlEncode bs).map normB64Char := by
    split
    · exact stripPad_no_pad _ hnopad
    · rfl
  rw [hsp, if_neg hlen]
  exact decodeGroups_encode bs hb

theorem char_valid_nat (c : Char) :
    c.toNat < 0xD800 ∨ (0xDFFF < c.toNat ∧ c.toNat < 0x110000) := by
  have h := c.valid
  unfold UInt32.isValidChar Nat.isValidChar at h
  exact h

theorem utf8EncodeChar_lt_256 (c : Char) : ∀ b ∈ utf8EncodeChar c, b < 256 := by
  have hv := char_valid_nat c
  intro b hb
  by_cases h1 : c.toNat < 0x80
  · simp [utf8EncodeChar, h1] at hb
    omega
  · by_cases h2 : c.toNat < 0x800
    · simp [utf8EncodeChar, h1, h2] at hb
      omega
    · by_cases h3 : c.toNat < 0x10000
      · simp [utf8EncodeChar, h1, h2, h3] at hb
        omega
      · simp [utf8EncodeChar, h1, h2, h3] at hb
        omega

theorem utf8EncodeChar_ne_nil (c : Char) : utf8EncodeChar c ≠ [] := by
  by_cases h1 : c.toNat < 0x80
  · simp [utf8EncodeChar, h1]
  · by_cases h2 : c.toNat < 0x800
    · simp [utf8EncodeChar, h1, h2]
    · by_cases h3 : c.toNat < 0x10000
      · simp [utf8EncodeChar, h1, h2, h3]
      · simp [utf8EncodeChar, h1, h2, h3]


theorem utf8DecodeOne_ascii (b0 : Nat) (rest : List Nat) (h : b0 < 0x80) :
    utf8DecodeOne b0 rest = some (b0, 0) := by
  simp [utf8DecodeOne, h]

theorem utf8DecodeOne_two (b0 b1 : Nat) (rest : List Nat)
    (h0 : 0xC2 ≤ b0) (h0' : b0 < 0xE0) (h1 : 0x80 ≤ b1) (h1' : b1 < 0xC0) :
    utf8DecodeOne b0 (b1 :: rest) = some ((b0 - 0xC0) * 64 + (b1 - 0x80), 1) := by
  rw [utf8DecodeOne, if_neg (by omega), if_neg (by omega), if_pos (by omega)]
  rw [if_pos ⟨h1, h1'⟩]

theorem utf8DecodeOne_three (b0 b1 b2 : Nat) (rest : List Nat)
    (h0 : 0xE0 ≤ b0) (h0' : b0 < 0xF0) (h1 : 0x80 ≤ b1) (h1' : b1 < 0xC0)
    (h2 : 0x80 ≤ b2) (h2' : b2 < 0xC0)
    (hcp : 0x800 ≤ (b0 - 0xE0) * 4096 + (b1 - 0x80) * 64 + (b2 - 0x80))
    (hs : ¬(0xD800 ≤ (b0 - 0xE0) * 4096 + (b1 - 0x80) * 64 + (b2 - 0x80) ∧
      (b0 - 0xE0) * 4096 + (b1 - 0x80) * 64 + (b2 - 0x80) < 0xE000)) :
    utf8DecodeOne b0 (b1 :: b2 :: rest) =
      some ((b0 - 0xE0) * 4096 + (b1 - 0x80) * 64 + (b2 - 0x80), 2) := by
  rw [utf8DecodeOne, if_neg (by omega), if_neg (by omega), if_neg (by omega),
    if_pos (by omega)]
  dsimp only
  rw [if_pos ⟨h1, h1', h2, h2', hcp, hs⟩]

theorem utf8DecodeOne_four (b0 b1 b2 b3 : Nat) (rest : List Nat)
    (h0 : 0xF0 ≤ b0) (h0' : b0 < 0xF5) (h1 : 0x80 ≤ b1) (h1' : b1 < 0xC0)
    (h2 : 0x80 ≤ b2) (h2' : b2 < 0xC0) (h3 : 0x80 ≤ b3) (h3' : b3 < 0xC0)
    (hcp : 0x10000 ≤ (b0 - 0xF0) * 262144 + (b1 - 0x80) * 4096 + (b2 - 0x80) * 64 +
      (b3 - 0x80))
    (hcp' : (b0 - 0xF0) * 262144 + (b1 - 0x80) * 4096 + (b2 - 0x80) * 64 + (b3 - 0x80) <
      0x110000) :
    utf8DecodeOne b0 (b1 :: b2 :: b3 :: rest) =
      some ((b0 - 0xF0) * 262144 + (b1 - 0x80) * 4096 + (b2 - 0x80) * 64 + (b3 - 0x80),
        3) := by
  rw [utf8DecodeOne, if_neg (by omega), if_neg (by omega), if_neg (by omega),
    if_neg (by omega), if_pos (by omega)]
  dsimp only
  rw [if_pos ⟨h1, h1', h2, h2', h3, h3', hcp, hcp'⟩]

theorem utf8DecodeAux_encodeChar (fuel : Nat) (c : Char) (rest : List Nat) :
    utf8DecodeAux (fuel + 1) (utf8EncodeChar c ++ rest) =
      (utf8DecodeAux fuel rest).map (fun cs => c :: cs) := by
  have hv := char_valid_nat c
  by_cases h1 : c.toNat < 0x80
  · have he : utf8EncodeChar c = [c.toNat] := by simp [utf8EncodeChar, h1]
    rw [he, List.cons_append, List.nil_append, utf8DecodeAux,
      utf8DecodeOne_ascii _ _ h1]
    dsimp only
    rw [List.drop_zero, Char.ofNat_toNat]
  · by_cases h2 : c.toNat < 0x800
    · have he : utf8EncodeChar c = [0xC0 + c.toNat / 64, 0x80 + c.toNat % 64] := by
        simp [utf8EncodeChar, h1, h2]
      rw [he, List.cons_append, List.cons_append, List.nil_append, utf8DecodeAux,
        utf8DecodeOne_two _ _ _ (by omega) (by omega) (by omega) (by omega)]
      dsimp only
      have harith : (0xC0 + c.toNat / 64 - 0xC0) * 64 + (0x80 + c.toNat % 64 - 0x80) =
          c.toNat := by omega
      rw [List.drop_succ_cons, List.drop_zero, harith, Char.ofNat_toNat]
    · by_cases h3 : c.toNat < 0x10000
      · have he : utf8EncodeChar c =
            [0xE0 + c.toNat / 4096, 0x80 + c.toNat / 64 % 64, 0x80 + c.toNat % 64] := by
          simp [utf8EncodeChar, h1, h2, h3]
        rw [he, List.cons_append, List.cons_append, List.cons_append, List.nil_append,
          utf8DecodeAux,
          utf8DecodeOne_three _ _ _ _ (by omega) (by omega) (by omega) (by omega)
            (by omega) (by omega) (by omega) (by omega)]
        dsimp only
        have harith : (0xE0 + c.toNat / 4096 - 0xE0) * 4096 +
            (0x80 + c.toNat / 64 % 64 - 0x80) * 64 + (0x80 + c.toNat % 64 - 0x80) =
            c.toNat := by omega
        rw [List.drop_succ_cons, List.drop_succ_cons, List.drop_zero, harith,
          Char.ofNat_toNat]
      · have he : utf8EncodeChar c =
            [0xF0 + c.toNat / 262144, 0x80 + c.toNat / 4096 % 64,
             0x80 + c.toNat / 64 % 64, 0x80 + c.toNat % 64] := by
          simp [utf8EncodeChar, h1, h2, h3]
        rw [he, List.cons_append, List.cons_append, List.cons_append, List.cons_append,
          List.nil_append, utf8DecodeAux,
          utf8DecodeOne_four _ _ _ _ _ (by omega) (by omega) (by omega) (by omega)
            (by omega) (by omega) (by omega) (by omega) (by omega) (by omega)]
        dsimp only
        have harith : (0xF0 + c.toNat / 262144 - 0xF0) * 262144 +
            (0x80 + c.toNat / 4096 % 64 - 0x80) * 4096 +
            (0x80 + c.toNat / 64 % 64 - 0x80) * 64 + (0x80 + c.toNat % 64 - 0x80) =
            c.toNat := by omega
        rw [List.drop_succ_cons, List.drop_succ_cons, List.drop_succ_cons,
          List.drop_zero, harith, Char.ofNat_toNat]

theorem utf8DecodeAux_encode_list : ∀ (l : List Char) (fuel : Nat), l.length ≤ fuel →
    utf8DecodeAux fuel (l.flatMap utf8EncodeChar) = some l
  | [], 0, _ => rfl
  | [], _ + 1, _ => rfl
  | c :: cs, fuel + 1, h => by
    rw [List.flatMap_cons, utf8DecodeAux_encodeChar,
      utf8DecodeAux_encode_list cs fuel (by simpa using h)]
    rfl
  | c :: cs, 0, h => absurd h (by simp)

theorem length_le_length_flatMap_utf8 : ∀ l : List Char,
    l.length ≤ (l.flatMap utf8EncodeChar).length
  | [] => Nat.le_refl 0
  | c :: cs => by
    rw [List.flatMap_cons, List.length_append, List.length_cons]
    have h1 : 1 ≤ (utf8EncodeChar c).length :=
      List.length_pos.2 (utf8EncodeChar_ne_nil c)
    have h2 := length_le_length_flatMap_utf8 cs
    omega

theorem utf8_roundtrip (p : String) : utf8Decode (utf8Encode p) = some p.data := by
  unfold utf8Decode utf8Encode
  exact utf8DecodeAux_encode_list p.data _ (length_le_length_flatMap_utf8 p.data)

theorem splitDots_append (a t : List Char) (ha : '.' ∉ a) :
    splitDots (a ++ '.' :: t) = a :: splitDots t := by
  induction a with
  | nil => simp [splitDots]
  | cons c cs ih =>
    have hc : ¬ c = '.' := fun h => ha (by simp [h])
    have ha' : '.' ∉ cs := fun h => ha (by simp [h])
    rw [List.cons_append]
    simp only [splitDots, if_neg hc, ih ha']

/-- Claim C1: decoding a well-formed three-segment bearer token — a dot-free
header, then the base64url encoding of the UTF-8 bytes of a payload string
that parses as JSON, then a signature — returns exactly the JSON value
encoded in the payload segment. -/
theorem decodeJwtPayload_wellformed (hdr p sig : String) (j : Json)
    (hh : '.' ∉ hdr.data) (hp : jsonParse p = some j) :
    decodeJwtPayload
      (hdr ++ "." ++ String.mk (base64UrlEncode (utf8Encode p)) ++ "." ++ sig) = j := by
  set mid := base64UrlEncode (utf8Encode p) with hmid
  have hbytes : ∀ b ∈ utf8Encode p, b < 256 := by
    intro b hb
    unfold utf8Encode at hb
    rcases List.mem_flatMap.1 hb with ⟨c, _, hbc⟩
    exact utf8EncodeChar_lt_256 c b hbc
  have hmiddot : '.' ∉ mid := by
    intro hmem
    rcases mem_base64UrlEncode _ hbytes '.' hmem with ⟨v, hv, heq⟩
    exact b64UrlChr_ne_dot v hv heq.symm
  have hpne : p.data ≠ [] := by
    intro hnil
    have hp0 : p = "" := String.ext (by rw [hnil])
    rw [hp0] at hp
    have hnone : jsonParse "" = none := rfl
    rw [hnone] at hp
    exact Option.noConfusion hp
  have hencne : utf8Encode p ≠ [] := by
    intro h0
    unfold utf8Encode at h0
    cases hd : p.data with
    | nil => exact hpne hd
    | cons c cs =>
      rw [hd, List.flatMap_cons] at h0
      exact utf8EncodeChar_ne_nil c (List.append_eq_nil.1 h0).1
  have hmidne : mid ≠ [] := by
    rw [hmid]
    cases henc : utf8Encode p with
    | nil => exact absurd henc hencne
    | cons b bs =>
      cases bs with
      | nil => simp [base64UrlEncode]
      | cons b2 bs2 =>
        cases bs2 with
        | nil => simp [base64UrlEncode]
        | cons b3 bs3 => simp [base64UrlEncode]
  have hdata : (hdr ++ "." ++ String.mk mid ++ "." ++ sig).data =
      hdr.data ++ '.' :: (mid ++ '.' :: sig.data) := by
    simp [String.data_append]
  have htokne : (hdr ++ "." ++ String.mk mid ++ "." ++ sig) ≠ "" := by
    intro h0
    have hd0 := congrArg String.data h0
    rw [hdata] at hd0
    simp at hd0
  have hsplit : splitDots ((hdr ++ "." ++ String.mk mid ++ "." ++ sig).data) =
      hdr.data :: mid :: splitDots sig.data := by
    rw [hdata, splitDots_append _ _ hh, splitDots_append _ _ hmiddot]
  have hmidempty : mid.isEmpty = false := by
    cases hm : mid with
    | nil => exact absurd hm hmidne
    | cons c cs => rfl
  have hatob : atob (List.map normB64Char mid) = some (utf8Encode p) := by
    rw [hmid]
    exact atob_encode _ hbytes
  have hstring : String.mk p.data = p := rfl
  unfold decodeJwtPayload decodeJwtPayloadE
  rw [if_neg htokne, hsplit]
  simp only [List.get?_cons_succ, List.get?_cons_zero, hmidempty, Bool.false_eq_true,
    if_false, hatob, utf8_roundtrip, hstring, hp]

/-- Witness for C1 at concrete inputs: the token whose payload segment
encodes the JSON array `[1]` decodes to that array. -/
theorem decodeJwtPayload_wellformed_witness :
    decodeJwtPayload
      ("h" ++ "." ++ String.mk (base64UrlEncode (utf8Encode "[1]")) ++ "." ++ "s") =
      Json.arr [Json.num "1"] :=
  decodeJwtPayload_wellformed "h" "[1]" "s" (Json.arr [Json.num "1"]) (by decide) rfl
